import Mathlib

/-!
Verification of the Turing-machine interpreter of this repository
(`TuringMachine` class, primary variant `atc-9.py`; the `atc-6.py` variant
differs only in omitting the tape boundary extension).

The machine definition and the mutable run state are embedded as Lean
structures; `step` is a pure function from a run state to the next run
state together with the `(continues, message)` pair the Python method
returns.  Python `IndexError` on a tape access is modelled by `step`
returning `none`; Python's negative-index wraparound on lists is modelled
faithfully by `pyGet`/`pySet`.
-/

/-- Machine definition: the constructor arguments of the Python
`TuringMachine` class (`atc-9.py`, lines 7-15).  Transitions are keyed by
the concatenated string `f"{state}_{symbol}"` exactly as in the source. -/
structure TuringMachine where
  states : List String
  tape_alphabet : List Char
  start_state : String
  accept_state : String
  reject_state : String
  transitions : List (String × String × Char × Char)
  max_steps : Nat
  deriving DecidableEq, Repr

/-- Mutable run state of one engine instance: the fields assigned by
`reset` and mutated by `step` (`atc-9.py`, lines 17-23).  A trace entry
records the data of the formatted string the source appends:
(state, symbol, next state, written symbol, direction). -/
structure Config where
  tape : List Char
  head : Int
  current_state : String
  steps : Nat
  transition_trace : List (String × Char × String × Char × Char)
  halted : Bool
  deriving DecidableEq, Repr

/-- The distinct messages `step` can return (`atc-9.py`, lines 28, 31, 44, 62),
keeping the data interpolated into the Python f-strings. -/
inductive StepMsg where
  | stepLimitReached (limit : Nat)
  | alreadyHalted
  | noTransition (state : String) (symbol : Char)
  | progress (steps : Nat) (state : String) (head : Int) (trimmedTape : List Char)
  deriving DecidableEq, Repr

/-- Python list read `l[i]`: a negative index counts from the end; an index
out of range on either side is an `IndexError`, modelled as `none`. -/
def pyGet (l : List Char) (i : Int) : Option Char :=
  let j := if i < 0 then i + l.length else i
  if 0 ≤ j then l.get? j.toNat else none

/-- Python list write `l[i] = a` (used only at an index that was just read
successfully, so the out-of-range case never fires in `step`). -/
def pySet (l : List Char) (i : Int) (a : Char) : List Char :=
  let j := if i < 0 then i + l.length else i
  if 0 ≤ j then l.set j.toNat a else l

/-- Python `''.join(tape).strip('_')`: drop the run of blanks from both
ends of the tape (display trimming, `atc-9.py`, line 62). -/
def stripBlanks (l : List Char) : List Char :=
  ((l.dropWhile (· == '_')).reverse.dropWhile (· == '_')).reverse

/-- The transition-table key `f"{state}_{symbol}"` (`atc-9.py`, line 40). -/
def tmKey (state : String) (symbol : Char) : String :=
  state ++ "_" ++ String.singleton symbol

/-- Right boundary extension (`atc-9.py`, lines 33-34): if the head indexes
past the right end of the materialized tape, append one blank. -/
def extendRight (c : Config) : Config :=
  if (c.tape.length : Int) ≤ c.head then { c with tape := c.tape ++ ['_'] } else c

/-- Left boundary extension (`atc-9.py`, lines 35-37): if the head is
negative, prepend one blank and re-index the head to 0. -/
def extendLeft (c : Config) : Config :=
  if c.head < 0 then { c with tape := '_' :: c.tape, head := 0 } else c

namespace TuringMachine

/-- `reset(input_string)` (`atc-9.py`, lines 17-23): the tape is the input
characters followed by 50 blanks, head 0, start state, zero steps, empty
trace, not halted. -/
def reset (M : TuringMachine) (input : String) : Config :=
  { tape := input.data ++ List.replicate 50 '_'
    head := 0
    current_state := M.start_state
    steps := 0
    transition_trace := []
    halted := false }

/-- Tape boundary extension (`atc-9.py`, lines 33-37): the two sequential
`if` statements at the start of the non-halted `step` body. -/
def extendBoundary (c : Config) : Config :=
  extendLeft (extendRight c)

/-- The transition application of `step` on a lookup hit (`atc-9.py`,
lines 46-60): record the trace entry, write the symbol, change state, move
the head by the direction (R = +1, L = -1, anything else stays), increment
the step counter, and halt if the new state is the accept or reject state. -/
def applyTransition (M : TuringMachine) (e : Config) (symbol : Char)
    (tr : String × Char × Char) : Config :=
  let next_state := tr.1
  let write_symbol := tr.2.1
  let direction := tr.2.2
  let e1 := { e with
    transition_trace :=
      e.transition_trace ++ [(e.current_state, symbol, next_state, write_symbol, direction)]
    tape := pySet e.tape e.head write_symbol
    current_state := next_state }
  let e2 := if direction = 'R' then { e1 with head := e1.head + 1 }
            else if direction = 'L' then { e1 with head := e1.head - 1 }
            else e1
  let e3 := { e2 with steps := e2.steps + 1 }
  if e3.current_state = M.accept_state ∨ e3.current_state = M.reject_state then
    { e3 with halted := true }
  else e3

/-- `step()` (`atc-9.py`, lines 25-62), returning the new run state and the
`(continues, message)` pair; `none` models a Python `IndexError` on the
tape access (unreachable from `reset`, see the safety theorem). -/
def step (M : TuringMachine) (c : Config) : Option (Config × Bool × StepMsg) :=
  if M.max_steps ≤ c.steps then
    some ({ c with halted := true }, false, .stepLimitReached M.max_steps)
  else if c.halted then
    some (c, false, .alreadyHalted)
  else
    let e := extendBoundary c
    match pyGet e.tape e.head with
    | none => none
    | some symbol =>
      match M.transitions.lookup (tmKey e.current_state symbol) with
      | none => some ({ e with halted := true }, false, .noTransition e.current_state symbol)
      | some tr =>
        let e2 := applyTransition M e symbol tr
        some (e2, !e2.halted, .progress e2.steps e2.current_state e2.head (stripBlanks e2.tape))

/-- `step()` of the `atc-6.py` variant (lines 23-54): identical to the
`atc-9.py` step except that it performs no tape boundary extension before
reading `tape[head]`. -/
def step6 (M : TuringMachine) (c : Config) : Option (Config × Bool × StepMsg) :=
  if M.max_steps ≤ c.steps then
    some ({ c with halted := true }, false, .stepLimitReached M.max_steps)
  else if c.halted then
    some (c, false, .alreadyHalted)
  else
    match pyGet c.tape c.head with
    | none => none
    | some symbol =>
      match M.transitions.lookup (tmKey c.current_state symbol) with
      | none => some ({ c with halted := true }, false, .noTransition c.current_state symbol)
      | some tr =>
        let e2 := applyTransition M c symbol tr
        some (e2, !e2.halted, .progress e2.steps e2.current_state e2.head (stripBlanks e2.tape))

/-- `is_accepted()` (`atc-9.py`, lines 64-65). -/
def is_accepted (M : TuringMachine) (c : Config) : Bool :=
  c.current_state == M.accept_state

/-- `is_rejected()` (`atc-9.py`, lines 67-68). -/
def is_rejected (M : TuringMachine) (c : Config) : Bool :=
  c.current_state == M.reject_state

end TuringMachine

/-- The four terminal verdicts of a halted run (spec §4.1; the four-way
classification appears in the source in `run_tm_step` of `atc-6.py`,
lines 133-141). -/
inductive Verdict where
  | accepted
  | rejected
  | stepLimitExceeded
  | stuckNoTransition
  deriving DecidableEq, Repr

/-- Verdict classification of a final run state, mirroring `run_tm_step`
of `atc-6.py` (lines 133-141): accepted if `is_accepted()`, else rejected
if `is_rejected()`, else step-limit if `steps >= max_steps`, else
halted with no transition. -/
def classify (M : TuringMachine) (c : Config) : Verdict :=
  if M.is_accepted c then .accepted
  else if M.is_rejected c then .rejected
  else if M.max_steps ≤ c.steps then .stepLimitExceeded
  else .stuckNoTransition

/-- The run state after one `step()` call, discarding the returned pair
(the state is unchanged on the unreachable `IndexError` branch). -/
def stepConfig (M : TuringMachine) (c : Config) : Config :=
  match M.step c with
  | some r => r.1
  | none => c

/-- The run state after `n` further `step()` calls. -/
def iterStep (M : TuringMachine) (c : Config) : Nat → Config
  | 0 => c
  | n + 1 => stepConfig M (iterStep M c n)

/-- The driver loop (`run_tm_step` of `atc-9.py`, lines 212-219, and the
`run()` wrapper of the other variants): repeatedly call the given step
function while the machine has not halted and the call returns
`continues = true`; fuel-indexed to make termination structural. -/
def runWith (stepF : Config → Option (Config × Bool × StepMsg)) : Nat → Config → Config
  | 0, c => c
  | n + 1, c =>
    if c.halted then c
    else
      match stepF c with
      | none => c
      | some (c', cont, _) => if cont then runWith stepF n c' else c'

/-- A complete run of the `atc-9.py` engine from `reset`: `max_steps + 1`
step calls always suffice, since every `continues = true` call increments
`steps` and a call with `steps ≥ max_steps` halts. -/
def runTM (M : TuringMachine) (input : String) : Config :=
  runWith (M.step) (M.max_steps + 1) (M.reset input)

/-- A complete run of the `atc-6.py` variant from `reset`. -/
def runTM6 (M : TuringMachine) (input : String) : Config :=
  runWith (M.step6) (M.max_steps + 1) (M.reset input)

/-- Reading the tape cell at signed offset `o` from the head: the logical
content of the tape relative to the head, used to state that boundary
extension preserves written symbols at their logical offsets. -/
def logicalRead (c : Config) (o : Int) : Option Char :=
  if 0 ≤ c.head + o then c.tape.get? (c.head + o).toNat else none

/-- The flip machine of spec §8 example 1 (states `{q0,q1,halt}`,
transitions `{(q0,'0')->(q1,'1',R), (q1,'_')->(halt,'_',N)}`,
accept `halt`); the reject state `reject` is taken from the `atc-6.py`
"Flip 0 to 1" example and is unreachable here. -/
def Mflip : TuringMachine :=
  { states := ["q0", "q1", "halt"]
    tape_alphabet := ['0', '1', '_']
    start_state := "q0"
    accept_state := "halt"
    reject_state := "reject"
    transitions := [("q0_0", ("q1", '1', 'R')), ("q1__", ("halt", '_', 'N'))]
    max_steps := 1000 }

/-- The "Unary Increment" machine of `atc-9.py` (lines 92-102): its
configured reject state equals its accept state `halt`. -/
def Minc : TuringMachine :=
  { states := ["q0", "halt"]
    tape_alphabet := ['1', '_']
    start_state := "q0"
    accept_state := "halt"
    reject_state := "halt"
    transitions := [("q0_1", ("q0", '1', 'R')), ("q0__", ("halt", '1', 'N'))]
    max_steps := 1000 }

/-- A machine whose transitions genuinely loop forever on any tape content:
`{(loop,'0')->(loop,'0',R), (loop,'_')->(loop,'_',R)}`, accept `halt`
(unreachable), `max_steps = 5`. -/
def Mloop : TuringMachine :=
  { states := ["loop", "halt"]
    tape_alphabet := ['0', '_']
    start_state := "loop"
    accept_state := "halt"
    reject_state := "reject"
    transitions := [("loop_0", ("loop", '0', 'R')), ("loop__", ("loop", '_', 'R'))]
    max_steps := 5 }

/-- The one-transition machine of spec §8 example 3, exactly as the spec
writes it: `{(loop,'0')->(loop,'0',R)}`, accept `halt`, `max_steps = 5`. -/
def Mloop0 : TuringMachine :=
  { states := ["loop", "halt"]
    tape_alphabet := ['0', '_']
    start_state := "loop"
    accept_state := "halt"
    reject_state := "reject"
    transitions := [("loop_0", ("loop", '0', 'R'))]
    max_steps := 5 }

/-- A machine that moves left off the tape on its first step and then has
no transition on the blank it finds there. -/
def Mleft : TuringMachine :=
  { states := ["q0", "q1", "halt"]
    tape_alphabet := ['0', '_']
    start_state := "q0"
    accept_state := "halt"
    reject_state := "reject"
    transitions := [("q0_0", ("q1", '0', 'L'))]
    max_steps := 1000 }

/-! ### Basic facts about the tape boundary extension -/

/-- Head-position invariant maintained by the engine: the head is at most
one cell outside the materialized tape. -/
def HeadInv (c : Config) : Prop :=
  -1 ≤ c.head ∧ c.head ≤ (c.tape.length : Int)

theorem extendRight_state (c : Config) : (extendRight c).current_state = c.current_state := by
  unfold extendRight; split <;> rfl

theorem extendRight_steps (c : Config) : (extendRight c).steps = c.steps := by
  unfold extendRight; split <;> rfl

theorem extendRight_trace (c : Config) :
    (extendRight c).transition_trace = c.transition_trace := by
  unfold extendRight; split <;> rfl

theorem extendRight_halted (c : Config) : (extendRight c).halted = c.halted := by
  unfold extendRight; split <;> rfl

theorem extendRight_head (c : Config) : (extendRight c).head = c.head := by
  unfold extendRight; split <;> rfl

theorem extendLeft_state (c : Config) : (extendLeft c).current_state = c.current_state := by
  unfold extendLeft; split <;> rfl

theorem extendLeft_steps (c : Config) : (extendLeft c).steps = c.steps := by
  unfold extendLeft; split <;> rfl

theorem extendLeft_trace (c : Config) :
    (extendLeft c).transition_trace = c.transition_trace := by
  unfold extendLeft; split <;> rfl

theorem extendLeft_halted (c : Config) : (extendLeft c).halted = c.halted := by
  unfold extendLeft; split <;> rfl

theorem extendBoundary_state (c : Config) :
    (TuringMachine.extendBoundary c).current_state = c.current_state := by
  unfold TuringMachine.extendBoundary
  rw [extendLeft_state, extendRight_state]

theorem extendBoundary_steps (c : Config) :
    (TuringMachine.extendBoundary c).steps = c.steps := by
  unfold TuringMachine.extendBoundary
  rw [extendLeft_steps, extendRight_steps]

theorem extendBoundary_trace (c : Config) :
    (TuringMachine.extendBoundary c).transition_trace = c.transition_trace := by
  unfold TuringMachine.extendBoundary
  rw [extendLeft_trace, extendRight_trace]

theorem extendBoundary_halted (c : Config) :
    (TuringMachine.extendBoundary c).halted = c.halted := by
  unfold TuringMachine.extendBoundary
  rw [extendLeft_halted, extendRight_halted]

/-- Under the head invariant, the boundary extension yields an in-bounds,
non-negative head. -/
theorem extendBoundary_bounds (c : Config) (h : HeadInv c) :
    0 ≤ (TuringMachine.extendBoundary c).head ∧
      (TuringMachine.extendBoundary c).head <
        ((TuringMachine.extendBoundary c).tape.length : Int) := by
  obtain ⟨h1, h2⟩ := h
  unfold TuringMachine.extendBoundary extendLeft extendRight
  split <;> split <;> simp_all <;> omega

theorem pySet_length (l : List Char) (i : Int) (a : Char) :
    (pySet l i a).length = l.length := by
  unfold pySet; dsimp only; split <;> split <;> simp

/-- If the index is non-negative and strictly below the length, the Python
read succeeds. -/
theorem pyGet_some (l : List Char) (i : Int) (h1 : 0 ≤ i) (h2 : i < (l.length : Int)) :
    ∃ a, pyGet l i = some a := by
  unfold pyGet
  have hlt : i.toNat < l.length := by omega
  have := List.get?_eq_get hlt
  simp only [if_neg (by omega : ¬ i < 0), if_pos h1, this]
  exact ⟨_, rfl⟩

/-! ### Facts about one transition application -/

theorem applyTransition_steps (M : TuringMachine) (e : Config) (symbol : Char)
    (tr : String × Char × Char) :
    (TuringMachine.applyTransition M e symbol tr).steps = e.steps + 1 := by
  unfold TuringMachine.applyTransition
  dsimp only
  split <;> split <;> first | rfl | (split <;> rfl)

theorem applyTransition_trace (M : TuringMachine) (e : Config) (symbol : Char)
    (tr : String × Char × Char) :
    (TuringMachine.applyTransition M e symbol tr).transition_trace =
      e.transition_trace ++ [(e.current_state, symbol, tr.1, tr.2.1, tr.2.2)] := by
  unfold TuringMachine.applyTransition
  dsimp only
  split <;> split <;> first | rfl | (split <;> rfl)

theorem applyTransition_tape_length (M : TuringMachine) (e : Config) (symbol : Char)
    (tr : String × Char × Char) :
    (TuringMachine.applyTransition M e symbol tr).tape.length = e.tape.length := by
  unfold TuringMachine.applyTransition
  dsimp only
  split <;> split <;> (try split) <;> simp [pySet_length]

theorem applyTransition_head (M : TuringMachine) (e : Config) (symbol : Char)
    (tr : String × Char × Char) :
    (TuringMachine.applyTransition M e symbol tr).head = e.head + 1 ∨
    (TuringMachine.applyTransition M e symbol tr).head = e.head - 1 ∨
    (TuringMachine.applyTransition M e symbol tr).head = e.head := by
  unfold TuringMachine.applyTransition
  dsimp only
  split <;> split <;> (try split) <;> simp

/-! ### Unfolding lemmas for the branches of `step` -/

/-- Structure eta: re-setting an already-true halted flag is the identity. -/
theorem Config.set_halted_self {c : Config} (h : c.halted = true) :
    { c with halted := true } = c := by
  cases c
  simp_all

/-- Branch 1 of `step` (`atc-9.py`, lines 26-28): the step-limit check. -/
theorem step_limit_branch (M : TuringMachine) (c : Config) (h : M.max_steps ≤ c.steps) :
    M.step c = some ({ c with halted := true }, false, .stepLimitReached M.max_steps) := by
  unfold TuringMachine.step
  rw [if_pos h]

/-- Branch 2 of `step` (`atc-9.py`, lines 30-31): the already-halted check. -/
theorem step_already_halted_branch (M : TuringMachine) (c : Config)
    (hl : ¬ M.max_steps ≤ c.steps) (hh : c.halted = true) :
    M.step c = some (c, false, .alreadyHalted) := by
  unfold TuringMachine.step
  rw [if_neg hl, if_pos hh]

/-- The no-transition branch of `step` (`atc-9.py`, lines 42-44). -/
theorem step_miss_branch (M : TuringMachine) (c : Config) (symbol : Char)
    (hl : ¬ M.max_steps ≤ c.steps) (hh : c.halted = false)
    (hr : pyGet (TuringMachine.extendBoundary c).tape (TuringMachine.extendBoundary c).head =
      some symbol)
    (hm : M.transitions.lookup (tmKey (TuringMachine.extendBoundary c).current_state symbol) =
      none) :
    M.step c = some ({ TuringMachine.extendBoundary c with halted := true }, false,
      .noTransition (TuringMachine.extendBoundary c).current_state symbol) := by
  unfold TuringMachine.step
  rw [if_neg hl, if_neg (by simp [hh])]
  simp only [hr, hm]

/-- The transition-hit branch of `step` (`atc-9.py`, lines 46-62). -/
theorem step_hit_branch (M : TuringMachine) (c : Config) (symbol : Char)
    (tr : String × Char × Char)
    (hl : ¬ M.max_steps ≤ c.steps) (hh : c.halted = false)
    (hr : pyGet (TuringMachine.extendBoundary c).tape (TuringMachine.extendBoundary c).head =
      some symbol)
    (hm : M.transitions.lookup (tmKey (TuringMachine.extendBoundary c).current_state symbol) =
      some tr) :
    M.step c = some (TuringMachine.applyTransition M (TuringMachine.extendBoundary c) symbol tr,
      !(TuringMachine.applyTransition M (TuringMachine.extendBoundary c) symbol tr).halted,
      .progress (TuringMachine.applyTransition M (TuringMachine.extendBoundary c) symbol tr).steps
        (TuringMachine.applyTransition M (TuringMachine.extendBoundary c) symbol tr).current_state
        (TuringMachine.applyTransition M (TuringMachine.extendBoundary c) symbol tr).head
        (stripBlanks
          (TuringMachine.applyTransition M (TuringMachine.extendBoundary c) symbol tr).tape)) := by
  unfold TuringMachine.step
  rw [if_neg hl, if_neg (by simp [hh])]
  simp only [hr, hm]

/-- Case analysis on a successful `step` call: one of the four branches
produced the result. -/
theorem step_cases (M : TuringMachine) (c c' : Config) (b : Bool) (m : StepMsg)
    (hs : M.step c = some (c', b, m)) :
    (M.max_steps ≤ c.steps ∧ c' = { c with halted := true }) ∨
    (¬ M.max_steps ≤ c.steps ∧ c.halted = true ∧ c' = c) ∨
    (¬ M.max_steps ≤ c.steps ∧ c.halted = false ∧
      c' = { TuringMachine.extendBoundary c with halted := true }) ∨
    (¬ M.max_steps ≤ c.steps ∧ c.halted = false ∧ ∃ symbol tr,
      c' = TuringMachine.applyTransition M (TuringMachine.extendBoundary c) symbol tr) := by
  unfold TuringMachine.step at hs
  by_cases hl : M.max_steps ≤ c.steps
  · rw [if_pos hl] at hs
    left
    refine ⟨hl, ?_⟩
    cases hs
    rfl
  · rw [if_neg hl] at hs
    by_cases hh : c.halted
    · rw [if_pos hh] at hs
      right; left
      refine ⟨hl, hh, ?_⟩
      cases hs
      rfl
    · rw [if_neg hh] at hs
      simp only [Bool.not_eq_true] at hh
      dsimp only at hs
      rcases hg : pyGet (TuringMachine.extendBoundary c).tape
          (TuringMachine.extendBoundary c).head with _ | symbol
      · rw [hg] at hs
        cases hs
      · rw [hg] at hs
        dsimp only at hs
        rcases hk : M.transitions.lookup
            (tmKey (TuringMachine.extendBoundary c).current_state symbol) with _ | tr
        · rw [hk] at hs
          dsimp only at hs
          right; right; left
          refine ⟨hl, hh, ?_⟩
          cases hs
          rfl
        · rw [hk] at hs
          dsimp only at hs
          right; right; right
          refine ⟨hl, hh, symbol, tr, ?_⟩
          cases hs
          rfl

/-! ### The head invariant and step accounting are preserved -/

theorem headInv_reset (M : TuringMachine) (s : String) : HeadInv (M.reset s) := by
  unfold HeadInv TuringMachine.reset
  simp
  omega

theorem extendBoundary_headInv (c : Config) (h : HeadInv c) :
    HeadInv (TuringMachine.extendBoundary c) := by
  have := extendBoundary_bounds c h
  unfold HeadInv
  omega

theorem step_headInv (M : TuringMachine) (c c' : Config) (b : Bool) (m : StepMsg)
    (h : HeadInv c) (hs : M.step c = some (c', b, m)) : HeadInv c' := by
  rcases step_cases M c c' b m hs with ⟨_, h1⟩ | ⟨_, _, h1⟩ | ⟨_, _, h1⟩ | ⟨_, _, symbol, tr, h1⟩
  · subst h1
    exact h
  · subst h1
    exact h
  · subst h1
    exact extendBoundary_headInv c h
  · subst h1
    have hb := extendBoundary_bounds c h
    have hh := applyTransition_head M (TuringMachine.extendBoundary c) symbol tr
    have hlen := applyTransition_tape_length M (TuringMachine.extendBoundary c) symbol tr
    unfold HeadInv
    rw [hlen]
    omega

/-- Step accounting invariant: the step counter equals the trace length and
never exceeds the step limit. -/
def Acct (M : TuringMachine) (c : Config) : Prop :=
  c.steps = c.transition_trace.length ∧ c.steps ≤ M.max_steps

theorem acct_reset (M : TuringMachine) (s : String) : Acct M (M.reset s) := by
  unfold Acct TuringMachine.reset
  simp

theorem step_acct (M : TuringMachine) (c c' : Config) (b : Bool) (m : StepMsg)
    (h : Acct M c) (hs : M.step c = some (c', b, m)) : Acct M c' := by
  rcases step_cases M c c' b m hs with ⟨_, h1⟩ | ⟨_, _, h1⟩ | ⟨hl, _, h1⟩ | ⟨hl, _, symbol, tr, h1⟩
  · subst h1
    exact h
  · subst h1
    exact h
  · subst h1
    obtain ⟨ha1, ha2⟩ := h
    unfold Acct
    dsimp only
    rw [extendBoundary_steps, extendBoundary_trace]
    exact ⟨ha1, ha2⟩
  · subst h1
    obtain ⟨ha1, ha2⟩ := h
    have h2 := applyTransition_steps M (TuringMachine.extendBoundary c) symbol tr
    have h3 := applyTransition_trace M (TuringMachine.extendBoundary c) symbol tr
    unfold Acct
    rw [h2, h3, extendBoundary_steps, extendBoundary_trace]
    simp only [List.length_append, List.length_cons, List.length_nil]
    omega

/-! ### Reachability by repeated `step()` calls -/

/-- `Reaches M a c`: run state `c` arises from `a` by finitely many
successful `step()` calls. -/
inductive Reaches (M : TuringMachine) : Config → Config → Prop
  | refl (c : Config) : Reaches M c c
  | tail {a c c' : Config} {b : Bool} {m : StepMsg}
      (h : Reaches M a c) (hs : M.step c = some (c', b, m)) : Reaches M a c'

theorem reaches_trans {M : TuringMachine} {a b c : Config}
    (h1 : Reaches M a b) (h2 : Reaches M b c) : Reaches M a c := by
  induction h2 with
  | refl => exact h1
  | tail h hs ih => exact Reaches.tail ih hs

theorem reaches_headInv {M : TuringMachine} {a c : Config}
    (h0 : HeadInv a) (h : Reaches M a c) : HeadInv c := by
  induction h with
  | refl => exact h0
  | tail h hs ih => exact step_headInv _ _ _ _ _ ih hs

theorem reaches_acct {M : TuringMachine} {a c : Config}
    (h0 : Acct M a) (h : Reaches M a c) : Acct M c := by
  induction h with
  | refl => exact h0
  | tail h hs ih => exact step_acct _ _ _ _ _ ih hs

/-- A successful read never fails under the head invariant: the boundary
extension puts the head in bounds, so the tape access returns a symbol. -/
theorem step_isSome (M : TuringMachine) (c : Config) (h : HeadInv c) :
    M.step c ≠ none := by
  unfold TuringMachine.step
  by_cases hl : M.max_steps ≤ c.steps
  · rw [if_pos hl]
    exact Option.some_ne_none _
  · rw [if_neg hl]
    by_cases hh : c.halted
    · rw [if_pos hh]
      exact Option.some_ne_none _
    · rw [if_neg hh]
      have hb := extendBoundary_bounds c h
      obtain ⟨a, ha⟩ := pyGet_some (TuringMachine.extendBoundary c).tape
        (TuringMachine.extendBoundary c).head hb.1 hb.2
      simp only [ha]
      rcases M.transitions.lookup
          (tmKey (TuringMachine.extendBoundary c).current_state a) with _ | tr
      · exact Option.some_ne_none _
      · exact Option.some_ne_none _

/-- The driver loop only visits states reachable by `step()` calls. -/
theorem runWith_reaches (M : TuringMachine) :
    ∀ (n : Nat) (c : Config), Reaches M c (runWith (M.step) n c) := by
  intro n
  induction n with
  | zero => exact fun c => Reaches.refl c
  | succ n ih =>
    intro c
    unfold runWith
    by_cases hh : c.halted
    · rw [if_pos hh]
      exact Reaches.refl c
    · rw [if_neg hh]
      rcases hs : M.step c with _ | ⟨c', cont, m⟩
      · exact Reaches.refl c
      · have h1 : Reaches M c c' := Reaches.tail (Reaches.refl c) hs
        dsimp only
        by_cases hc : cont = true
        · rw [if_pos hc]
          exact reaches_trans h1 (ih c')
        · rw [if_neg hc]
          exact h1

theorem runTM_reaches (M : TuringMachine) (s : String) :
    Reaches M (M.reset s) (runTM M s) :=
  runWith_reaches M (M.max_steps + 1) (M.reset s)

/-! ### Boundary extension and logical tape offsets -/

theorem extendBoundary_left (c : Config) (h : c.head = -1) :
    (TuringMachine.extendBoundary c).tape = '_' :: c.tape ∧
      (TuringMachine.extendBoundary c).head = 0 := by
  unfold TuringMachine.extendBoundary extendLeft extendRight
  rw [if_neg (by omega : ¬ ((c.tape.length : Int) ≤ c.head))]
  rw [if_pos (by omega : c.head < 0)]
  exact ⟨rfl, rfl⟩

theorem extendBoundary_right (c : Config) (h : c.head = (c.tape.length : Int)) :
    (TuringMachine.extendBoundary c).tape = c.tape ++ ['_'] ∧
      (TuringMachine.extendBoundary c).head = c.head := by
  unfold TuringMachine.extendBoundary extendLeft extendRight
  rw [if_pos (by omega : (c.tape.length : Int) ≤ c.head)]
  rw [if_neg (by omega : ¬ c.head < 0)]
  exact ⟨rfl, rfl⟩

theorem extendBoundary_head_nonneg (c : Config) (h : 0 ≤ c.head) :
    (TuringMachine.extendBoundary c).head = c.head := by
  unfold TuringMachine.extendBoundary extendLeft extendRight
  split <;> rw [if_neg (by omega : ¬ c.head < 0)]

/-- The boundary extension preserves every materialized symbol at its
logical offset from the head, provided the head is at most one cell to the
left of the tape (the engine invariant). -/
theorem extendBoundary_logicalRead (c : Config) (hb : -1 ≤ c.head) :
    ∀ (o : Int) (x : Char), logicalRead c o = some x →
      logicalRead (TuringMachine.extendBoundary c) o = some x := by
  intro o x hx
  unfold logicalRead at hx
  by_cases ho : 0 ≤ c.head + o
  swap
  · rw [if_neg ho] at hx
    cases hx
  rw [if_pos ho] at hx
  have hn : (c.head + o).toNat < c.tape.length := by
    rcases List.get?_eq_some.mp hx with ⟨hlt, _⟩
    exact hlt
  unfold TuringMachine.extendBoundary extendLeft extendRight
  by_cases h1 : (c.tape.length : Int) ≤ c.head
  · rw [if_pos h1]
    dsimp only
    rw [if_neg (by omega : ¬ c.head < 0)]
    unfold logicalRead
    dsimp only
    rw [if_pos ho, List.get?_append hn]
    exact hx
  · rw [if_neg h1]
    by_cases h2 : c.head < 0
    · rw [if_pos h2]
      unfold logicalRead
      dsimp only
      have hhead : c.head = -1 := by omega
      rw [if_pos (by omega : (0:Int) ≤ 0 + o)]
      have hidx : (0 + o).toNat = (c.head + o).toNat + 1 := by omega
      rw [hidx, List.get?_cons_succ]
      exact hx
    · rw [if_neg h2]
      unfold logicalRead
      rw [if_pos ho]
      exact hx

/-! ### Verdict predicates as the claims define them -/

/-- Accepted verdict: the current state equals the accept state
(`is_accepted()` of `atc-9.py`). -/
@[reducible] def VAccepted (M : TuringMachine) (c : Config) : Prop :=
  M.is_accepted c = true

/-- Rejected verdict: the current state equals the configured reject state
(`is_rejected()` of `atc-9.py`). -/
@[reducible] def VRejected (M : TuringMachine) (c : Config) : Prop :=
  M.is_rejected c = true

/-- Step-limit verdict: halted at the step bound without being in the
accept or reject state (`atc-6.py`, lines 138-139). -/
@[reducible] def VStepLimitExceeded (M : TuringMachine) (c : Config) : Prop :=
  M.is_accepted c = false ∧ M.is_rejected c = false ∧ M.max_steps ≤ c.steps

/-- Stuck verdict: halted below the step bound without being in the accept
or reject state (`atc-6.py`, lines 140-141). -/
@[reducible] def VStuckNoTransition (M : TuringMachine) (c : Config) : Prop :=
  M.is_accepted c = false ∧ M.is_rejected c = false ∧ c.steps < M.max_steps

/-- Exactly one of the four verdicts holds for the given run state. -/
@[reducible] def exactlyOneVerdict (M : TuringMachine) (c : Config) : Prop :=
  (VAccepted M c ∧ ¬ VRejected M c ∧ ¬ VStepLimitExceeded M c ∧ ¬ VStuckNoTransition M c) ∨
  (¬ VAccepted M c ∧ VRejected M c ∧ ¬ VStepLimitExceeded M c ∧ ¬ VStuckNoTransition M c) ∨
  (¬ VAccepted M c ∧ ¬ VRejected M c ∧ VStepLimitExceeded M c ∧ ¬ VStuckNoTransition M c) ∨
  (¬ VAccepted M c ∧ ¬ VRejected M c ∧ ¬ VStepLimitExceeded M c ∧ VStuckNoTransition M c)

/-! ### Concrete run states used by witnesses and counterexamples -/

/-- A halted run state used to witness the idempotence claim. -/
def Chalt : Config :=
  { tape := ['0'], head := 0, current_state := "q0", steps := 0,
    transition_trace := [], halted := true }

/-- A non-halted run state that has already used up the step budget of
`Mloop` (`max_steps = 5`). -/
def Cfull : Config :=
  { tape := ['0'], head := 0, current_state := "loop", steps := 5,
    transition_trace := [], halted := false }

/-- The run state of `Mleft` on input "0" after its single transition: the
head sits at -1, one cell left of the materialized tape. -/
def Cleft : Config := stepConfig Mleft (Mleft.reset "0")

/-- A run state with the head one cell left of a two-symbol tape, used to
witness the boundary-extension claim. -/
def CL : Config :=
  { tape := ['a', 'b'], head := -1, current_state := "q0", steps := 1,
    transition_trace := [], halted := false }

/-! ### The claims -/

/-- C1: for every machine definition and run state, once the engine's
halted flag is true, any number of further `step()` calls leave the whole
run state — in particular `currentState`, `head`, `tape` and `stepCount` —
unchanged, and each such call returns `continues = false`. -/
theorem claim1_halted_idempotent (M : TuringMachine) (c : Config)
    (h : c.halted = true) (n : Nat) :
    iterStep M c n = c ∧ ∃ m, M.step c = some (c, false, m) := by
  have hstep : ∃ m, M.step c = some (c, false, m) := by
    by_cases hl : M.max_steps ≤ c.steps
    · refine ⟨.stepLimitReached M.max_steps, ?_⟩
      rw [step_limit_branch M c hl, Config.set_halted_self h]
    · exact ⟨.alreadyHalted, step_already_halted_branch M c hl h⟩
  refine ⟨?_, hstep⟩
  induction n with
  | zero => rfl
  | succ n ih =>
    unfold iterStep
    rw [ih]
    unfold stepConfig
    obtain ⟨m, hm⟩ := hstep
    rw [hm]

/-- Witness for C1 at a concrete halted run state. -/
theorem claim1_halted_idempotent_witness :
    iterStep Mflip Chalt 3 = Chalt ∧ ∃ m, Mflip.step Chalt = some (Chalt, false, m) :=
  claim1_halted_idempotent Mflip Chalt rfl 3

/-- C2 (amended): for every halted run of a machine whose configured
reject state differs from its accept state, exactly one of the four
verdicts Accepted, Rejected, StepLimitExceeded, StuckNoTransition holds;
when the configured reject state equals the accept state the exclusivity
fails (see the counterexample). -/
theorem claim2_verdicts (M : TuringMachine) (c : Config)
    (hne : M.accept_state ≠ M.reject_state) (_hh : c.halted = true) :
    exactlyOneVerdict M c := by
  unfold exactlyOneVerdict VAccepted VRejected VStepLimitExceeded VStuckNoTransition
  unfold TuringMachine.is_accepted TuringMachine.is_rejected
  simp only [beq_iff_eq, beq_eq_false_iff_ne, ne_eq]
  by_cases ha : c.current_state = M.accept_state
  · left
    have hr : ¬ c.current_state = M.reject_state := by
      rw [ha]
      exact hne
    refine ⟨ha, hr, ?_, ?_⟩
    · intro hcon
      exact hcon.1 ha
    · intro hcon
      exact hcon.1 ha
  · by_cases hr : c.current_state = M.reject_state
    · right; left
      refine ⟨ha, hr, ?_, ?_⟩
      · intro hcon
        exact hcon.2.1 hr
      · intro hcon
        exact hcon.2.1 hr
    · by_cases hs : M.max_steps ≤ c.steps
      · right; right; left
        refine ⟨ha, hr, ⟨ha, hr, hs⟩, ?_⟩
        intro hcon
        omega
      · right; right; right
        refine ⟨ha, hr, ?_, ha, hr, by omega⟩
        intro hcon
        omega

/-- Witness for C2 (amended) on the flip machine, whose accept and reject
states differ, after its stuck run on input "1". -/
theorem claim2_verdicts_witness :
    Mflip.accept_state ≠ Mflip.reject_state ∧ (runTM Mflip "1").halted = true ∧
      exactlyOneVerdict Mflip (runTM Mflip "1") :=
  ⟨by decide, by decide, claim2_verdicts Mflip (runTM Mflip "1") (by decide) (by decide)⟩

/-- C2 counterexample: the "Unary Increment" machine of `atc-9.py`
configures `reject_state = accept_state = "halt"`; its halted run on input
"1" satisfies both Accepted and Rejected, so the four verdicts are not
mutually exclusive over all machine definitions. -/
theorem claim2_verdicts_cx :
    (runTM Minc "1").halted = true ∧
    VAccepted Minc (runTM Minc "1") ∧
    VRejected Minc (runTM Minc "1") ∧
    ¬ exactlyOneVerdict Minc (runTM Minc "1") := by
  refine ⟨by decide, by decide, by decide, by decide⟩

/-- C3: every run state reachable from `reset` — in particular the final
state of a complete run — has `stepCount` equal to the length of
`transitionTrace` and `stepCount` never exceeding `maxSteps`. -/
theorem claim3_accounting (M : TuringMachine) (s : String) :
    Reaches M (M.reset s) (runTM M s) ∧
    ∀ c : Config, Reaches M (M.reset s) c →
      c.steps = c.transition_trace.length ∧ c.steps ≤ M.max_steps := by
  refine ⟨runTM_reaches M s, ?_⟩
  intro c hc
  exact reaches_acct (acct_reset M s) hc

/-- Witness for C3: the completed flip run on input "0". -/
theorem claim3_accounting_witness :
    (runTM Mflip "0").steps = (runTM Mflip "0").transition_trace.length ∧
      (runTM Mflip "0").steps ≤ Mflip.max_steps :=
  (claim3_accounting Mflip "0").2 (runTM Mflip "0") (claim3_accounting Mflip "0").1

/-- C4 (amended): if `stepCount ≥ maxSteps` when `step()` is called, the
call sets `halted = true` and returns `(false, step-limit message)` with
no other change to the run state — before any transition lookup or tape
access; the genuinely looping machine `Mloop` (`(loop,'0')->(loop,'0',R)`
and `(loop,'_')->(loop,'_',R)`), with `maxSteps = 5` on input "0", halts
with verdict StepLimitExceeded after exactly 5 executed steps.  (The
spec's one-transition version of the loop machine instead gets stuck, see
the counterexample.) -/
theorem claim4_step_limit (M : TuringMachine) (c : Config)
    (h : M.max_steps ≤ c.steps) :
    M.step c = some ({ c with halted := true }, false, .stepLimitReached M.max_steps) ∧
    (runTM Mloop "0").steps = 5 ∧
    (runTM Mloop "0").halted = true ∧
    classify Mloop (runTM Mloop "0") = .stepLimitExceeded :=
  ⟨step_limit_branch M c h, by decide, by decide, by decide⟩

/-- Witness for C4 at a concrete run state that has used up its budget. -/
theorem claim4_step_limit_witness :
    Mloop.step Cfull = some ({ Cfull with halted := true }, false,
      .stepLimitReached Mloop.max_steps) ∧
    (runTM Mloop "0").steps = 5 ∧
    (runTM Mloop "0").halted = true ∧
    classify Mloop (runTM Mloop "0") = .stepLimitExceeded :=
  claim4_step_limit Mloop Cfull (by decide)

/-- C4 counterexample: the machine exactly as the spec's example 3 writes
it — only `(loop,'0')->(loop,'0',R)`, `maxSteps = 5` — on input "0" halts
StuckNoTransition after 1 step (the head moves onto a blank that has no
transition), not StepLimitExceeded after 5 steps. -/
theorem claim4_step_limit_cx :
    (runTM Mloop0 "0").steps = 1 ∧
    classify Mloop0 (runTM Mloop0 "0") = .stuckNoTransition ∧
    classify Mloop0 (runTM Mloop0 "0") ≠ .stepLimitExceeded ∧
    (runTM Mloop0 "0").steps ≠ 5 := by
  refine ⟨by decide, by decide, by decide, by decide⟩

/-- C5: on a transition-table miss, `step()` halts the machine and returns
`(false, no-transition message)` instead of raising an error; the
two-transition flip machine on input "1" misses on `(q0,'1')` and is
classified StuckNoTransition after 0 completed transitions. -/
theorem claim5_no_transition (M : TuringMachine) (c : Config) (symbol : Char)
    (hl : ¬ M.max_steps ≤ c.steps) (hh : c.halted = false)
    (hr : pyGet (TuringMachine.extendBoundary c).tape
      (TuringMachine.extendBoundary c).head = some symbol)
    (hm : M.transitions.lookup (tmKey c.current_state symbol) = none) :
    M.step c = some ({ TuringMachine.extendBoundary c with halted := true }, false,
      .noTransition (TuringMachine.extendBoundary c).current_state symbol) ∧
    (runTM Mflip "1").steps = 0 ∧
    (runTM Mflip "1").transition_trace = [] ∧
    (runTM Mflip "1").halted = true ∧
    classify Mflip (runTM Mflip "1") = .stuckNoTransition := by
  have hm2 : M.transitions.lookup
      (tmKey (TuringMachine.extendBoundary c).current_state symbol) = none := by
    rw [extendBoundary_state]
    exact hm
  exact ⟨step_miss_branch M c symbol hl hh hr hm2, by decide, by decide, by decide, by decide⟩

/-- Witness for C5 at the initial run state of the flip machine on "1". -/
theorem claim5_no_transition_witness :
    Mflip.step (Mflip.reset "1") =
      some ({ TuringMachine.extendBoundary (Mflip.reset "1") with halted := true }, false,
        .noTransition (TuringMachine.extendBoundary (Mflip.reset "1")).current_state '1') ∧
    (runTM Mflip "1").steps = 0 ∧
    (runTM Mflip "1").transition_trace = [] ∧
    (runTM Mflip "1").halted = true ∧
    classify Mflip (runTM Mflip "1") = .stuckNoTransition :=
  claim5_no_transition Mflip (Mflip.reset "1") '1' (by decide) rfl (by decide) (by decide)

/-- C6: when the head has moved one cell past either end of the
materialized tape, the boundary extension performed by the next `step()`
grows the tape by exactly one blank on that end — appending on the right,
prepending and re-indexing the head to 0 on the left — and every
previously materialized symbol keeps its logical offset from the head. -/
theorem claim6_tape_extension (c : Config)
    (h : c.head = -1 ∨ c.head = (c.tape.length : Int)) :
    (TuringMachine.extendBoundary c).tape.length = c.tape.length + 1 ∧
    (c.head = -1 → (TuringMachine.extendBoundary c).tape = '_' :: c.tape ∧
      (TuringMachine.extendBoundary c).head = 0) ∧
    (c.head = (c.tape.length : Int) → (TuringMachine.extendBoundary c).tape = c.tape ++ ['_'] ∧
      (TuringMachine.extendBoundary c).head = c.head) ∧
    ∀ (o : Int) (x : Char), logicalRead c o = some x →
      logicalRead (TuringMachine.extendBoundary c) o = some x := by
  have hb : -1 ≤ c.head := by rcases h with h | h <;> omega
  refine ⟨?_, extendBoundary_left c, extendBoundary_right c,
    extendBoundary_logicalRead c hb⟩
  rcases h with h | h
  · rw [(extendBoundary_left c h).1]
    simp
  · rw [(extendBoundary_right c h).1]
    simp

/-- Witness for C6 at a concrete run state with the head one cell to the
left of a two-symbol tape. -/
theorem claim6_tape_extension_witness :
    (TuringMachine.extendBoundary CL).head = 0 ∧
      logicalRead (TuringMachine.extendBoundary CL) 1 = some 'a' ∧
      logicalRead (TuringMachine.extendBoundary CL) 2 = some 'b' :=
  ⟨((claim6_tape_extension CL (Or.inl rfl)).2.1 rfl).2,
   (claim6_tape_extension CL (Or.inl rfl)).2.2.2 1 'a' rfl,
   (claim6_tape_extension CL (Or.inl rfl)).2.2.2 2 'b' rfl⟩

/-- C7: `reset(inputString)` succeeds for every input string (the empty
string included) and establishes the tape as the input characters followed
by (at least) 50 blanks, head 0, the start state, a zero step counter, an
empty trace, and a cleared halted flag. -/
theorem claim7_reset (M : TuringMachine) (s : String) :
    (M.reset s).tape = s.data ++ List.replicate 50 '_' ∧
    (∃ n : Nat, 50 ≤ n ∧ (M.reset s).tape = s.data ++ List.replicate n '_') ∧
    (M.reset s).head = 0 ∧
    (M.reset s).current_state = M.start_state ∧
    (M.reset s).steps = 0 ∧
    (M.reset s).halted = false ∧
    (M.reset s).transition_trace = [] :=
  ⟨rfl, ⟨50, le_refl 50, rfl⟩, rfl, rfl, rfl, rfl, rfl⟩

/-- C8: the flip machine of spec §8 example 1, run by the `atc-6.py`
engine on input "0", executes exactly 2 steps, is Accepted, and its final
tape trimmed of blanks is "1". -/
theorem claim8_flip_run :
    (runTM6 Mflip "0").steps = 2 ∧
    (runTM6 Mflip "0").halted = true ∧
    classify Mflip (runTM6 Mflip "0") = .accepted ∧
    stripBlanks (runTM6 Mflip "0").tape = ['1'] := by
  refine ⟨by decide, by decide, by decide, by decide⟩

/-- C9: in every run state reachable from `reset`, the boundary extension
puts the head in bounds (`0 ≤ head < length(tape)`) before the tape read
and write, so the out-of-bounds (`IndexError`) branch of `step()` is
unreachable. -/
theorem claim9_safe_access (M : TuringMachine) (s : String) (c : Config)
    (h : Reaches M (M.reset s) c) :
    (0 ≤ (TuringMachine.extendBoundary c).head ∧
      (TuringMachine.extendBoundary c).head <
        ((TuringMachine.extendBoundary c).tape.length : Int)) ∧
    M.step c ≠ none := by
  have hi := reaches_headInv (headInv_reset M s) h
  exact ⟨extendBoundary_bounds c hi, step_isSome M c hi⟩

/-- Witness for C9 at the initial run state of the flip machine. -/
theorem claim9_safe_access_witness :
    (0 ≤ (TuringMachine.extendBoundary (Mflip.reset "0")).head ∧
      (TuringMachine.extendBoundary (Mflip.reset "0")).head <
        ((TuringMachine.extendBoundary (Mflip.reset "0")).tape.length : Int)) ∧
    Mflip.step (Mflip.reset "0") ≠ none :=
  claim9_safe_access Mflip "0" (Mflip.reset "0") (Reaches.refl _)

/-- C10 (amended): on a transition-table miss, `step()` changes only the
halted flag plus the effect of the preceding boundary extension:
`currentState`, `stepCount` and `transitionTrace` are exactly as before
the call, the head is unchanged when it was non-negative and is re-indexed
from -1 to 0 by a left extension, and every previously materialized tape
symbol keeps its logical offset from the head. -/
theorem claim10_miss_frame (M : TuringMachine) (c : Config) (symbol : Char)
    (hb : -1 ≤ c.head) (hl : ¬ M.max_steps ≤ c.steps) (hh : c.halted = false)
    (hr : pyGet (TuringMachine.extendBoundary c).tape
      (TuringMachine.extendBoundary c).head = some symbol)
    (hm : M.transitions.lookup (tmKey c.current_state symbol) = none) :
    M.step c = some ({ TuringMachine.extendBoundary c with halted := true }, false,
      .noTransition (TuringMachine.extendBoundary c).current_state symbol) ∧
    (TuringMachine.extendBoundary c).current_state = c.current_state ∧
    (TuringMachine.extendBoundary c).steps = c.steps ∧
    (TuringMachine.extendBoundary c).transition_trace = c.transition_trace ∧
    (0 ≤ c.head → (TuringMachine.extendBoundary c).head = c.head) ∧
    (c.head = -1 → (TuringMachine.extendBoundary c).head = 0) ∧
    ∀ (o : Int) (x : Char), logicalRead c o = some x →
      logicalRead (TuringMachine.extendBoundary c) o = some x := by
  have hm2 : M.transitions.lookup
      (tmKey (TuringMachine.extendBoundary c).current_state symbol) = none := by
    rw [extendBoundary_state]
    exact hm
  exact ⟨step_miss_branch M c symbol hl hh hr hm2,
    extendBoundary_state c, extendBoundary_steps c, extendBoundary_trace c,
    extendBoundary_head_nonneg c,
    fun h => (extendBoundary_left c h).2,
    extendBoundary_logicalRead c hb⟩

/-- Witness for C10 at the initial run state of the flip machine on "1". -/
theorem claim10_miss_frame_witness :
    Mflip.step (Mflip.reset "1") =
      some ({ TuringMachine.extendBoundary (Mflip.reset "1") with halted := true }, false,
        .noTransition (TuringMachine.extendBoundary (Mflip.reset "1")).current_state '1') ∧
    (TuringMachine.extendBoundary (Mflip.reset "1")).steps = (Mflip.reset "1").steps :=
  ⟨(claim10_miss_frame Mflip (Mflip.reset "1") '1' (by decide) (by decide) rfl (by decide)
      (by decide)).1,
   (claim10_miss_frame Mflip (Mflip.reset "1") '1' (by decide) (by decide) rfl (by decide)
      (by decide)).2.2.1⟩

/-- C10 counterexample: on `Mleft`, after one left-moving transition the
head is at -1; the next call misses the table and halts, but the head is
re-indexed to 0 by the left boundary extension — so the claim that `head`
is exactly as before the call is false. -/
theorem claim10_miss_frame_cx :
    Cleft.halted = false ∧
    Cleft.head = -1 ∧
    (∃ m, Mleft.step Cleft = some (stepConfig Mleft Cleft, false, m)) ∧
    (stepConfig Mleft Cleft).transition_trace = Cleft.transition_trace ∧
    (stepConfig Mleft Cleft).halted = true ∧
    (stepConfig Mleft Cleft).head ≠ Cleft.head := by
  refine ⟨by decide, by decide, ⟨.noTransition "q1" '_', by decide⟩, by decide, by decide,
    by decide⟩
